import Mathlib

/-!
Verification of the SCAD polygon kernel (`scad.py`): a point type `P`, a
mutable contour type `Polygon` with tessellation appenders, and a
`ScadPolygon` aggregate that flattens contours into an OpenSCAD
`polygon(points = [...], paths = [...])` wire format.

Modelling conventions:
* Scalars are modelled by an arbitrary field `α` (instantiated at `ℚ` or `ℝ`);
  the transcendental library functions `math.cos`, `math.sin`, `math.atan2`
  and the constant `math.pi` are passed in as explicit function/constant
  parameters `Cos`, `Sin`, `Atan2`, `Pi`, so every definition stays
  executable and no analytic fact is assumed.
* Python in-place mutation of a polygon's point list is modelled by
  returning the updated value; operations that can raise
  (`ZeroDivisionError` in `arc_append` / `circle_append`) return `Option`,
  with `none` for the raise.  In the source the raising division happens
  before the append loop starts, so a `none` result corresponds to a call
  that mutated nothing.
* For claims about reference aliasing, a small heap model is layered on
  top: a `PHeap` is a store of point-list cells, a `PolygonRef` is a
  Python `Polygon` object (a name plus a reference to its list cell).
* Rendering is modelled over `ℚ` with exact decimal formatting
  (`format3` models `"{0:.3f}".format` on the exact value of the float,
  rounding half to even).
-/

namespace Scad

/-- The single-quote character used by the generated OpenSCAD comments. -/
def sq : String := "\x27"

/-- `P`: a 3 dimensional point (source class `P`, fields `x`, `y`, `z`). -/
structure P (α : Type) where
  x : α
  y : α
  z : α
deriving DecidableEq, Repr

/-- `P.__add__`: add two points together. -/
def P.add {α : Type} [Field α] (point1 point2 : P α) : P α :=
  ⟨point1.x + point2.x, point1.y + point2.y, point1.z + point2.z⟩

/-- `P.__sub__`: subtract two points from one another. -/
def P.sub {α : Type} [Field α] (point1 point2 : P α) : P α :=
  ⟨point1.x - point2.x, point1.y - point2.y, point1.z - point2.z⟩

/-- `P.__mul__`: multiply a point by a scale factor. -/
def P.mul {α : Type} [Field α] (point : P α) (scale : α) : P α :=
  ⟨point.x * scale, point.y * scale, point.z * scale⟩

/-- `P.__truediv__`: divide a point by a scale factor. -/
def P.truediv {α : Type} [Field α] (point : P α) (scale : α) : P α :=
  ⟨point.x / scale, point.y / scale, point.z / scale⟩

/-- `P.rotate2d`: rotate a point by `angle` around the origin
(`z` of the result is `0.0` in the source). -/
def P.rotate2d {α : Type} [Field α] (Cos Sin : α → α) (point : P α) (angle : α) : P α :=
  let sin_angle := Sin angle
  let cos_angle := Cos angle
  ⟨point.x * cos_angle - point.y * sin_angle, point.y * cos_angle + point.x * sin_angle, 0⟩

/-- `P.y_mirror`: return the point mirrored across the Y axis. -/
def P.y_mirror {α : Type} [Field α] (point : P α) : P α :=
  ⟨-point.x, point.y, -point.z⟩

/-- `Polygon`: a named, ordered sequence of points (source class `Polygon`,
fields `name` and `points`; the constructor copies the caller's list, which
is invisible for the pure value model and is made explicit in the heap
model below). -/
structure Polygon (α : Type) where
  name : String
  points : List (P α)
deriving DecidableEq, Repr

/-- `Polygon.point_append`: append a point to a Polygon. -/
def Polygon.point_append {α : Type} (polygon : Polygon α) (point : P α) : Polygon α :=
  { polygon with points := polygon.points ++ [point] }

/-- The list of points produced by the loop of `Polygon.arc_append`
(source lines 204-219): `points_count` points at angles
`start_angle + index * delta_angle` with
`delta_angle = (end_angle - start_angle) / (points_count - 1)`; each
appended point is `P(x, y)`, so its `z` is the default `0.0`. -/
def arc_points {α : Type} [Field α] (Cos Sin : α → α) (center : P α)
    (radius start_angle end_angle : α) (points_count : ℤ) : List (P α) :=
  let span_angle := end_angle - start_angle
  let delta_angle := span_angle / (((points_count - 1 : ℤ) : α))
  let center_x := center.x
  let center_y := center.y
  (List.range points_count.toNat).map (fun (index : ℕ) =>
    let angle := start_angle + (index : α) * delta_angle
    let x := center_x + radius * Cos angle
    let y := center_y + radius * Sin angle
    ⟨x, y, 0⟩)

/-- `Polygon.arc_append`: append an arc of points to a Polygon.  The source
computes `delta_angle = span_angle / float(points_count - 1)` before the
append loop; for `points_count = 1` this raises `ZeroDivisionError`
(modelled as `none`) before any point has been appended. -/
def Polygon.arc_append {α : Type} [Field α] (Cos Sin : α → α) (polygon : Polygon α)
    (center : P α) (radius start_angle end_angle : α) (points_count : ℤ) :
    Option (Polygon α) :=
  if points_count - 1 = 0 then none
  else some { polygon with
    points := polygon.points ++ arc_points Cos Sin center radius start_angle end_angle points_count }

/-- The list of points produced by the loop of `Polygon.circle_append`
(source lines 233-247): `points_count` points at angles
`index * (2 * pi / points_count)` on the circle of radius `diameter / 2`. -/
def circle_points {α : Type} [Field α] (Cos Sin : α → α) (Pi : α) (center : P α)
    (diameter : α) (points_count : ℤ) : List (P α) :=
  let delta_angle := (2 * Pi) / ((points_count : ℤ) : α)
  let radius := diameter / 2
  let center_x := center.x
  let center_y := center.y
  (List.range points_count.toNat).map (fun (index : ℕ) =>
    let angle := (index : α) * delta_angle
    let x := center_x + radius * Cos angle
    let y := center_y + radius * Sin angle
    ⟨x, y, 0⟩)

/-- `Polygon.circle_append`: append a circle to a Polygon.  The source
computes `delta_angle = (2 * pi) / points_count` before the loop; for
`points_count = 0` this raises `ZeroDivisionError` (modelled as `none`). -/
def Polygon.circle_append {α : Type} [Field α] (Cos Sin : α → α) (Pi : α)
    (polygon : Polygon α) (center : P α) (diameter : α) (points_count : ℤ) :
    Option (Polygon α) :=
  if points_count = 0 then none
  else some { polygon with
    points := polygon.points ++ circle_points Cos Sin Pi center diameter points_count }

/-- `Polygon.rotated_rectangle_append`: append a rotated rectangle to a
Polygon: the four corners (upper-right, lower-right, lower-left,
upper-left) of the `dx × dy` rectangle centred at the origin, each rotated
by `angle` and then offset by `center`. -/
def Polygon.rotated_rectangle_append {α : Type} [Field α] (Cos Sin : α → α)
    (polygon : Polygon α) (center : P α) (dx dy angle : α) : Polygon α :=
  let half_dx := dx / 2
  let half_dy := dy / 2
  let upper_right_corner : P α := ⟨half_dx, half_dy, 0⟩
  let lower_right_corner : P α := ⟨half_dx, -half_dy, 0⟩
  let upper_left_corner : P α := ⟨-half_dx, half_dy, 0⟩
  let lower_left_corner : P α := ⟨-half_dx, -half_dy, 0⟩
  let rotated_upper_right_corner := upper_right_corner.rotate2d Cos Sin angle
  let rotated_lower_right_corner := lower_right_corner.rotate2d Cos Sin angle
  let rotated_upper_left_corner := upper_left_corner.rotate2d Cos Sin angle
  let rotated_lower_left_corner := lower_left_corner.rotate2d Cos Sin angle
  { polygon with points := polygon.points ++
      [center.add rotated_upper_right_corner,
       center.add rotated_lower_right_corner,
       center.add rotated_lower_left_corner,
       center.add rotated_upper_left_corner] }

/-- `Polygon.slot_append`: append a slot to a Polygon.  Computes the
midpoint of the two end points, the slot angle via `atan2`, the two arc
centers at `center ± (slot_length/2)` along that angle, and appends two
half-circle arcs of radius `slot_width/2` (the second offset by 180°),
each with `points_count` points, via `arc_append`. -/
def Polygon.slot_append {α : Type} [Field α] (Cos Sin : α → α) (Atan2 : α → α → α)
    (Pi : α) (polygon : Polygon α) (end_point1 end_point2 : P α)
    (slot_length slot_width : α) (points_count : ℤ) : Option (Polygon α) :=
  let center := (end_point1.add end_point2).truediv 2
  let slot_angle := Atan2 (end_point1.y - end_point2.y) (end_point1.x - end_point2.x)
  let slot_radius := slot_width / 2
  let half_slot_length := slot_length / 2
  let degrees180 := Pi
  let center1 : P α := ⟨center.x + half_slot_length * Cos slot_angle,
                        center.y + half_slot_length * Sin slot_angle, 0⟩
  let center2 : P α := ⟨center.x + half_slot_length * Cos (slot_angle + degrees180),
                        center.y + half_slot_length * Sin (slot_angle + degrees180), 0⟩
  let degrees90 := Pi / 2
  match polygon.arc_append Cos Sin center1 slot_radius
      (slot_angle - degrees90) (slot_angle + degrees90) points_count with
  | none => none
  | some polygon1 =>
    polygon1.arc_append Cos Sin center2 slot_radius
      (slot_angle + degrees180 - degrees90) (slot_angle + degrees180 + degrees90) points_count

/-! ### Fixed-precision decimal formatting (`"{0:.3f}".format`) -/

/-- The decimal digit character for `n` (`n < 10` expected). -/
def digit_char (n : ℕ) : Char := Char.ofNat (48 + n % 10)

/-- Three-digit zero-padded decimal text of `n % 1000`. -/
def pad3 (n : ℕ) : String :=
  ⟨[digit_char (n / 100), digit_char (n / 10 % 10), digit_char (n % 10)]⟩

/-- Round a non-negative rational to the nearest integer, ties to even
(the rounding used by Python float formatting on the exact value). -/
def round_half_even (q : ℚ) : ℤ :=
  let f := ⌊q⌋
  let r := q - (f : ℚ)
  if r < 1 / 2 then f
  else if 1 / 2 < r then f + 1
  else if f % 2 = 0 then f else f + 1

/-- `"{0:.3f}".format(q)`: fixed-point text with exactly three digits
after the decimal point; the sign is taken from `q` itself, so a tiny
negative value formats as `-0.000` (which callers then normalize). -/
def format3 (q : ℚ) : String :=
  let m : ℕ := (round_half_even (|q| * 1000)).toNat
  let sign := if q < 0 then "-" else ""
  sign ++ toString (m / 1000) ++ "." ++ pad3 (m % 1000)

/-- One coordinate as rendered by `Polygon.points_scad_lines_append`
(source lines 353-356): 3-decimal text with `"-0.000"` normalized to
`"0.000"`. -/
def coord_text (q : ℚ) : String :=
  let t := format3 q
  if t = "-0.000" then "0.000" else t

/-! ### Rendering (`points = [...]` / `paths = [...]`) -/

/-- Python `list(range(a, b))` for naturals. -/
def py_range (a b : ℕ) : List ℕ := List.range' a (b - a)

/-- Python `l[a:b]` for `a ≤ b` (both ends clamped to the list length). -/
def py_slice {β : Type} (l : List β) (a b : ℕ) : List β := (l.drop a).take (b - a)

/-- `int(ceil(float(points_size) / float(slice_size)))`. -/
def slices_count (points_size slice_size : ℕ) : ℕ :=
  (points_size + slice_size - 1) / slice_size

/-- The lines appended for one slice of the loop of
`Polygon.points_scad_lines_append` (source lines 340-361): the slice's
points, each as `[x, y]` with 3-decimal coordinates, and a trailing
index-range comment; nothing when the slice is empty. -/
def points_slice_line (points : List (P ℚ)) (indent : String) (start_index : ℤ)
    (slice_index : ℕ) : List String :=
  let points_size := points.length
  let slice_start := slice_index * 4
  let slice_end := min ((slice_index + 1) * 4) points_size
  let slice_points := py_slice points slice_start slice_end
  if slice_points.isEmpty then []
  else
    let point_texts := slice_points.map (fun slice_point =>
      let x_text := coord_text slice_point.x
      let y_text := coord_text slice_point.y
      s!"[{x_text}, {y_text}]")
    let slice_text := String.intercalate (", ") point_texts
    let a : ℤ := start_index + slice_start
    let b : ℤ := start_index + slice_end - 1
    [s!"{indent}  {slice_text}, // {a}:{b}"]

/-- `Polygon.points_scad_lines_append`: append the Polygon points to a
list of lines; returns the updated lines and the `end_index`
(`start_index + len(points)`). -/
def Polygon.points_scad_lines_append (polygon : Polygon ℚ) (scad_lines : List String)
    (indent : String) (start_index : ℤ) : List String × ℤ :=
  let name := polygon.name
  let points := polygon.points
  let points_size := points.length
  let end_index : ℤ := start_index + points_size
  let e1 : ℤ := end_index - 1
  let scad_lines := scad_lines ++ [s!"{indent} // Polygon {sq}{name}{sq} {start_index}:{e1}"]
  let scad_lines := (List.range (slices_count points_size 4)).foldl
    (fun lines slice_index => lines ++ points_slice_line points indent start_index slice_index)
    scad_lines
  (scad_lines, end_index)

/-- The line appended for one slice of the loop of
`Polygon.indices_scad_lines_append` (source lines 282-297): the slice's
point indices (offset by `start_index`) joined by `", "`, with the
opening `[` on the first slice and the closing `],` on the last. -/
def indices_slice_line (points_size : ℕ) (indent : String) (start_index : ℤ)
    (slice_index : ℕ) : List String :=
  let slice_size := 25
  let start_slice_index := slice_index * slice_size
  let end_slice_index := min ((slice_index + 1) * slice_size) points_size
  let indices := py_range start_slice_index end_slice_index
  let line_text := String.intercalate (", ")
    (indices.map (fun (index : ℕ) => toString (start_index + (index : ℤ))))
  let front_text := if slice_index = 0 then "  [" else "  "
  let end_text := if end_slice_index = points_size then "]," else ","
  [indent ++ front_text ++ line_text ++ end_text]

/-- `Polygon.indices_scad_lines_append`: append the list of Polygon point
indices to a lines list; returns the updated lines and the `end_index`. -/
def Polygon.indices_scad_lines_append (polygon : Polygon ℚ) (scad_lines : List String)
    (indent : String) (start_index : ℤ) : List String × ℤ :=
  let name := polygon.name
  let points_size := polygon.points.length
  let end_index : ℤ := start_index + points_size
  let e1 : ℤ := end_index - 1
  let scad_lines := scad_lines ++ [s!"{indent} // Polygon {sq}{name}{sq} {start_index}:{e1}"]
  let scad_lines := (List.range (slices_count points_size 25)).foldl
    (fun lines slice_index => lines ++ indices_slice_line points_size indent start_index slice_index)
    scad_lines
  (scad_lines, end_index)

/-- The path emitted for one contour by `indices_scad_lines_append`: the
point indices of all its slices (in slice order), each offset by
`start_index` — exactly the integers whose text makes up the emitted
`line_text`s. -/
def Polygon.path_indices (polygon : Polygon ℚ) (start_index : ℤ) : List ℤ :=
  ((List.range (slices_count polygon.points.length 25)).map (fun slice_index =>
    (py_range (slice_index * 25) (min ((slice_index + 1) * 25) polygon.points.length)).map
      (fun (index : ℕ) => start_index + (index : ℤ)))).flatten

/-- The points emitted for one contour by `points_scad_lines_append`: the
concatenation of its slices in slice order. -/
def Polygon.emitted_points (polygon : Polygon ℚ) : List (P ℚ) :=
  ((List.range (slices_count polygon.points.length 4)).map (fun slice_index =>
    py_slice polygon.points (slice_index * 4)
      (min ((slice_index + 1) * 4) polygon.points.length))).flatten

/-- `ScadPolygon`: an OpenSCAD `polygon` command (source class
`ScadPolygon`; the constructor copies the caller's polygons list and
stores `convexity`, default `-1`). -/
structure ScadPolygon where
  name : String
  polygons : List (Polygon ℚ)
  convexity : ℤ
deriving DecidableEq, Repr

/-- `ScadPolygon.append`: append a Polygon to the ScadPolygon. -/
def ScadPolygon.polygon_append (scad_polygon : ScadPolygon) (polygon : Polygon ℚ) :
    ScadPolygon :=
  { scad_polygon with polygons := scad_polygon.polygons ++ [polygon] }

/-- The `points` loop of `ScadPolygon.scad_lines_append` (source lines
617-619): each polygon appends its point lines and threads the running
index. -/
def ScadPolygon.points_loop : List (Polygon ℚ) → List String → String → ℤ →
    List String × ℤ
  | [], scad_lines, _, index => (scad_lines, index)
  | polygon :: rest, scad_lines, indent, index =>
    let r := polygon.points_scad_lines_append scad_lines indent index
    points_loop rest r.1 indent r.2

/-- The `paths` loop of `ScadPolygon.scad_lines_append` (source lines
623-625). -/
def ScadPolygon.indices_loop : List (Polygon ℚ) → List String → String → ℤ →
    List String × ℤ
  | [], scad_lines, _, index => (scad_lines, index)
  | polygon :: rest, scad_lines, indent, index =>
    let r := polygon.indices_scad_lines_append scad_lines indent index
    indices_loop rest r.1 indent r.2

/-- The optional `convexity` text of the closing line (source line 628):
empty exactly when `convexity < 0`. -/
def convexity_text (convexity : ℤ) : String :=
  if convexity < 0 then "" else s!", convexity={convexity}"

/-- The closing line of the `polygon` command (source lines 629-630). -/
def ScadPolygon.end_line (scad_polygon : ScadPolygon) (indent : String) : String :=
  let name := scad_polygon.name
  let last_index : ℤ := (scad_polygon.polygons.length : ℤ) - 1
  let conv_text := convexity_text scad_polygon.convexity
  s!"{indent} ]{conv_text}); // End ScadPolygon {sq}{name}{sq} [0-{last_index}]"

/-- `ScadPolygon.scad_lines_append`: append the full `polygon` command to
a lines list. -/
def ScadPolygon.scad_lines_append (scad_polygon : ScadPolygon)
    (scad_lines : List String) (indent : String) : List String :=
  let name := scad_polygon.name
  let polygons := scad_polygon.polygons
  let last_index : ℤ := (polygons.length : ℤ) - 1
  let scad_lines := scad_lines ++ [s!"{indent}// ScadPolygon {sq}{name} [0-{last_index}]{sq}"]
  let scad_lines := scad_lines ++ [s!"{indent}polygon(points = ["]
  let next_indent := indent ++ " "
  let r1 := ScadPolygon.points_loop polygons scad_lines next_indent 0
  let scad_lines := r1.1 ++ [s!"{indent} ], paths = ["]
  let r2 := ScadPolygon.indices_loop polygons scad_lines next_indent 0
  r2.1 ++ [scad_polygon.end_line indent]

/-- The global flattened point buffer of the rendered output: every
contour's emitted points, in contour-supplied order. -/
def ScadPolygon.flat_points (scad_polygon : ScadPolygon) : List (P ℚ) :=
  (scad_polygon.polygons.map Polygon.emitted_points).flatten

/-- The per-contour paths of the rendered output, threading the running
start index exactly as the `paths` loop does (each
`indices_scad_lines_append` returns `start_index + len(points)` as the
next start index). -/
def ScadPolygon.paths_from : List (Polygon ℚ) → ℤ → List (List ℤ)
  | [], _ => []
  | polygon :: rest, start_index =>
    polygon.path_indices start_index ::
      ScadPolygon.paths_from rest (start_index + (polygon.points.length : ℤ))

/-- All paths of the rendered output, starting at index 0. -/
def ScadPolygon.paths (scad_polygon : ScadPolygon) : List (List ℤ) :=
  ScadPolygon.paths_from scad_polygon.polygons 0

/-! ### Heap model for aliasing claims

A `PHeap` is a store of Python list objects (cells holding point lists);
a `PolygonRef` is a Python `Polygon` object: its name and a reference to
the cell holding its points. -/

/-- A store of Python point-list objects. -/
abbrev PHeap : Type := List (List (P ℚ))

/-- A Python `Polygon` object: name plus reference to its points cell. -/
structure PolygonRef where
  name : String
  points_ref : ℕ
deriving DecidableEq, Repr

/-- `Polygon.__init__` in the heap model: `self.points = points[:]`
allocates a fresh cell containing a copy of the caller's list; the new
Polygon references the fresh cell, never the caller's. -/
def Polygon.init_heap (name : String) (points_arg : ℕ) (h : PHeap) :
    PHeap × PolygonRef :=
  (h ++ [h.getD points_arg []], ⟨name, h.length⟩)

/-- `Polygon.point_append` in the heap model: mutate the polygon's cell
in place. -/
def point_append_heap (h : PHeap) (polygon : PolygonRef) (point : P ℚ) : PHeap :=
  h.set polygon.points_ref (h.getD polygon.points_ref [] ++ [point])

/-- Dereference a Polygon object: reading `polygon.points` from the heap. -/
def resolve (h : PHeap) (polygon : PolygonRef) : Polygon ℚ :=
  ⟨polygon.name, h.getD polygon.points_ref []⟩

/-- A Python `ScadPolygon` object: its polygons list holds references to
`Polygon` objects (`self.polygons = polygons[:]` copies the list of
references, not the point lists). -/
structure ScadPolygonRef where
  name : String
  polygons : List PolygonRef
  convexity : ℤ
deriving DecidableEq, Repr

/-- `ScadPolygon.append` in the heap model: records the reference only;
the heap (the contours' point lists) is not read or written. -/
def ScadPolygonRef.polygon_append (scad_polygon : ScadPolygonRef)
    (polygon : PolygonRef) : ScadPolygonRef :=
  { scad_polygon with polygons := scad_polygon.polygons ++ [polygon] }

/-- Rendering a `ScadPolygonRef`: `scad_lines_append` reads each
`polygon.points` during the render loops, i.e. every contour is
dereferenced against the heap as it stands at render time. -/
def render_heap (h : PHeap) (scad_polygon : ScadPolygonRef)
    (scad_lines : List String) (indent : String) : List String :=
  ScadPolygon.scad_lines_append
    ⟨scad_polygon.name, scad_polygon.polygons.map (resolve h), scad_polygon.convexity⟩
    scad_lines indent

/-! ### Generic list lemmas -/

/-- Splitting a `take` at an intermediate index. -/
theorem take_add' {β : Type} (l : List β) (m n : ℕ) :
    l.take (m + n) = l.take m ++ (l.drop m).take n := by
  conv_lhs => rw [← List.take_append_drop m (l.take (m + n))]
  rw [List.take_take, Nat.min_eq_left (Nat.le_add_right m n), ← List.take_drop]

/-- A fold that only ever appends lines is the initial lines followed by
the fold started from nothing. -/
theorem foldl_emit {β γ : Type} (g : γ → List β) (r : List γ) :
    ∀ (init : List β),
      r.foldl (fun l b => l ++ g b) init = init ++ r.foldl (fun l b => l ++ g b) [] := by
  induction r with
  | nil => intro init; simp
  | cons b r ih =>
    intro init
    simp only [List.foldl_cons]
    rw [ih (init ++ g b), ih ([] ++ g b)]
    simp [List.append_assoc]

/-- Concatenating the size-`s` chunks of a list recovers its prefix. -/
theorem chunks_flatten {β : Type} (l : List β) (s : ℕ) :
    ∀ k : ℕ, ((List.range k).map (fun i => (l.drop (i * s)).take s)).flatten
      = l.take (k * s) := by
  intro k
  induction k with
  | zero => simp
  | succ k ih =>
    rw [List.range_succ, List.map_append, List.flatten_append, ih]
    simp only [List.map_cons, List.map_nil, List.flatten_cons, List.flatten_nil,
      List.append_nil]
    rw [← take_add']
    congr 1
    ring

/-- A source slice `l[i*s : min((i+1)*s, len(l))]` is the `i`-th size-`s`
chunk of `l`. -/
theorem py_slice_chunk {β : Type} (l : List β) (s i : ℕ) :
    py_slice l (i * s) (min ((i + 1) * s) l.length) = (l.drop (i * s)).take s := by
  unfold py_slice
  have hks : (i + 1) * s = i * s + s := by ring
  by_cases h : s ≤ l.length - i * s
  · congr 1
    omega
  · rw [List.take_of_length_le, List.take_of_length_le]
    · simp only [List.length_drop]; omega
    · simp only [List.length_drop]; omega

/-- Concatenating the source index slices `range(i*s, min((i+1)*s, n))`
over all slice indices recovers `range(min(k*s, n))`. -/
theorem py_range_chunks_flatten (n s : ℕ) :
    ∀ k : ℕ, ((List.range k).map (fun i => py_range (i * s) (min ((i + 1) * s) n))).flatten
      = py_range 0 (min (k * s) n) := by
  intro k
  induction k with
  | zero => simp [py_range]
  | succ k ih =>
    rw [List.range_succ, List.map_append, List.flatten_append, ih]
    simp only [List.map_cons, List.map_nil, List.flatten_cons, List.flatten_nil,
      List.append_nil]
    have hks : (k + 1) * s = k * s + s := by ring
    unfold py_range
    by_cases hk : k * s ≤ n
    · have h1 : min (k * s) n = k * s := by omega
      rw [h1, Nat.sub_zero, Nat.sub_zero]
      have h4 := List.range'_append_1 0 (k * s) (min ((k + 1) * s) n - k * s)
      rw [Nat.zero_add] at h4
      rw [h4]
      congr 1
      omega
    · have h1 : min (k * s) n = n := by omega
      have h2 : min ((k + 1) * s) n = n := by omega
      have h3 : n - k * s = 0 := by omega
      rw [h1, h2, h3]
      simp

/-- The ceiling `slices_count` covers the whole list. -/
theorem le_slices_count_mul (n s : ℕ) (hs : 0 < s) : n ≤ slices_count n s * s := by
  unfold slices_count
  have h1 := Nat.div_add_mod (n + s - 1) s
  have h2 := Nat.mod_lt (n + s - 1) hs
  rw [Nat.mul_comm]
  omega

/-! ### Per-contour emission lemmas -/

/-- The points emitted for a contour are exactly its points, in order. -/
theorem Polygon.emitted_points_eq (polygon : Polygon ℚ) :
    polygon.emitted_points = polygon.points := by
  unfold Polygon.emitted_points
  rw [List.map_congr_left (fun i _ => py_slice_chunk polygon.points 4 i)]
  rw [chunks_flatten]
  exact List.take_of_length_le (le_slices_count_mul _ 4 (by norm_num))

/-- Mapping inside the chunks commutes with flattening. -/
theorem flatten_map_map {β γ δ : Type} (f : γ → δ) (g : β → List γ) (l : List β) :
    (l.map (fun b => (g b).map f)).flatten = ((l.map g).flatten).map f := by
  rw [List.map_flatten, List.map_map]
  rfl

/-- The path emitted for a contour starting at `start_index` is the
contiguous index range `[start_index, start_index + len(points))`. -/
theorem Polygon.path_indices_eq (polygon : Polygon ℚ) (start_index : ℤ) :
    polygon.path_indices start_index
      = (List.range polygon.points.length).map (fun (j : ℕ) => start_index + (j : ℤ)) := by
  unfold Polygon.path_indices
  rw [flatten_map_map (fun (index : ℕ) => start_index + (index : ℤ))
    (fun slice_index => py_range (slice_index * 25)
      (min ((slice_index + 1) * 25) polygon.points.length))]
  rw [py_range_chunks_flatten]
  have h1 : min (slices_count polygon.points.length 25 * 25) polygon.points.length
      = polygon.points.length := by
    have := le_slices_count_mul polygon.points.length 25 (by norm_num)
    omega
  rw [h1]
  unfold py_range
  rw [Nat.sub_zero, ← List.range_eq_range']

/-- The length of an emitted path equals the contour's point count. -/
theorem Polygon.path_indices_length (polygon : Polygon ℚ) (start_index : ℤ) :
    (polygon.path_indices start_index).length = polygon.points.length := by
  rw [Polygon.path_indices_eq]
  simp

/-- Bounds for membership in an emitted path. -/
theorem Polygon.mem_path_indices {polygon : Polygon ℚ} {start_index : ℤ} {a : ℤ}
    (h : a ∈ polygon.path_indices start_index) :
    start_index ≤ a ∧ a < start_index + (polygon.points.length : ℤ) := by
  rw [Polygon.path_indices_eq] at h
  obtain ⟨j, hj, rfl⟩ := List.mem_map.mp h
  rw [List.mem_range] at hj
  constructor
  · omega
  · have : (j : ℤ) < (polygon.points.length : ℤ) := by exact_mod_cast hj
    omega

/-! ### Flattened paths lemmas -/

/-- `paths_from` produces one path per contour. -/
theorem ScadPolygon.paths_from_length (polygons : List (Polygon ℚ)) (start_index : ℤ) :
    (ScadPolygon.paths_from polygons start_index).length = polygons.length := by
  induction polygons generalizing start_index with
  | nil => rfl
  | cons polygon rest ih =>
    simp only [ScadPolygon.paths_from, List.length_cons, ih]

/-- The `i`-th path starts at `start_index` plus the total length of the
preceding contours. -/
theorem ScadPolygon.paths_from_getElem? (polygons : List (Polygon ℚ)) (start_index : ℤ)
    (i : ℕ) :
    (ScadPolygon.paths_from polygons start_index)[i]?
      = (polygons[i]?).map (fun polygon => polygon.path_indices
          (start_index + (((polygons.map (fun x => x.points.length)).take i).sum : ℤ))) := by
  induction polygons generalizing start_index i with
  | nil => simp [ScadPolygon.paths_from]
  | cons polygon rest ih =>
    cases i with
    | zero => simp [ScadPolygon.paths_from]
    | succ i =>
      simp only [ScadPolygon.paths_from, List.getElem?_cons_succ, ih, List.map_cons,
        List.take_succ_cons, List.sum_cons]
      cases rest[i]? with
      | none => rfl
      | some polygon2 =>
        simp only [Option.map_some']
        congr 1
        ring_nf

/-- The concatenation of all paths from `start_index` is the contiguous
range of all point indices. -/
theorem ScadPolygon.paths_from_flatten (polygons : List (Polygon ℚ)) (start_index : ℤ) :
    (ScadPolygon.paths_from polygons start_index).flatten
      = (List.range ((polygons.map (fun x => x.points.length)).sum)).map
          (fun (j : ℕ) => start_index + (j : ℤ)) := by
  induction polygons generalizing start_index with
  | nil => simp [ScadPolygon.paths_from]
  | cons polygon rest ih =>
    simp only [ScadPolygon.paths_from, List.flatten_cons, ih, List.map_cons, List.sum_cons]
    rw [Polygon.path_indices_eq, List.range_add, List.map_append, List.map_map]
    congr 1
    apply List.map_congr_left
    intro j _
    simp only [Function.comp_apply]
    push_cast
    ring

/-- Every index in any path from `start_index` is at least `start_index`. -/
theorem ScadPolygon.paths_from_mem_ge (polygons : List (Polygon ℚ)) (start_index : ℤ)
    (q : List ℤ) (hq : q ∈ ScadPolygon.paths_from polygons start_index) :
    ∀ b ∈ q, start_index ≤ b := by
  induction polygons generalizing start_index with
  | nil =>
    rw [show ScadPolygon.paths_from [] start_index = [] from rfl] at hq
    exact absurd hq (List.not_mem_nil q)
  | cons polygon rest ih =>
    simp only [ScadPolygon.paths_from, List.mem_cons] at hq
    rcases hq with rfl | hq
    · intro b hb
      exact (Polygon.mem_path_indices hb).1
    · intro b hb
      have := ih (start_index + (polygon.points.length : ℤ)) hq b hb
      have hlen : (0 : ℤ) ≤ (polygon.points.length : ℤ) := by positivity
      omega

/-- The emitted paths are pairwise disjoint. -/
theorem ScadPolygon.paths_from_pairwise_disjoint (polygons : List (Polygon ℚ))
    (start_index : ℤ) :
    List.Pairwise (fun p q => ∀ a ∈ p, a ∉ q)
      (ScadPolygon.paths_from polygons start_index) := by
  induction polygons generalizing start_index with
  | nil => exact List.Pairwise.nil
  | cons polygon rest ih =>
    refine List.Pairwise.cons ?_ (ih _)
    intro q hq a ha hmem
    have h1 := (Polygon.mem_path_indices ha).2
    have h2 := ScadPolygon.paths_from_mem_ge rest
      (start_index + (polygon.points.length : ℤ)) q hq a hmem
    omega

/-! ### Append-only rendering lemmas

`scad_lines_append` and its helpers only ever append to the lines list
they are given, so the emitted segment is independent of the lines
already present. -/

/-- `points_scad_lines_append` appends a segment that does not depend on
the incoming lines, and returns `start_index + len(points)`. -/
theorem Polygon.points_scad_lines_append_eq (polygon : Polygon ℚ)
    (scad_lines : List String) (indent : String) (start_index : ℤ) :
    polygon.points_scad_lines_append scad_lines indent start_index
      = (scad_lines ++ (polygon.points_scad_lines_append [] indent start_index).1,
         start_index + (polygon.points.length : ℤ)) := by
  simp only [Polygon.points_scad_lines_append]
  rw [foldl_emit (points_slice_line polygon.points indent start_index)
      (List.range (slices_count polygon.points.length 4)) (scad_lines ++ [_]),
    foldl_emit (points_slice_line polygon.points indent start_index)
      (List.range (slices_count polygon.points.length 4)) ([] ++ [_])]
  simp [List.append_assoc]

/-- `indices_scad_lines_append` appends a segment that does not depend on
the incoming lines, and returns `start_index + len(points)` — the running
offset advances by exactly the contour's length. -/
theorem Polygon.indices_scad_lines_append_eq (polygon : Polygon ℚ)
    (scad_lines : List String) (indent : String) (start_index : ℤ) :
    polygon.indices_scad_lines_append scad_lines indent start_index
      = (scad_lines ++ (polygon.indices_scad_lines_append [] indent start_index).1,
         start_index + (polygon.points.length : ℤ)) := by
  simp only [Polygon.indices_scad_lines_append]
  rw [foldl_emit (indices_slice_line polygon.points.length indent start_index)
      (List.range (slices_count polygon.points.length 25)) (scad_lines ++ [_]),
    foldl_emit (indices_slice_line polygon.points.length indent start_index)
      (List.range (slices_count polygon.points.length 25)) ([] ++ [_])]
  simp [List.append_assoc]

/-- The segment emitted by the `points` loop starting from empty lines. -/
def ScadPolygon.points_emit (polygons : List (Polygon ℚ)) (indent : String)
    (index : ℤ) : List String :=
  (ScadPolygon.points_loop polygons [] indent index).1

/-- Closed form of the `points` loop: incoming lines plus the emitted
segment, with the running index advanced by the total point count. -/
theorem ScadPolygon.points_loop_closed (polygons : List (Polygon ℚ)) :
    ∀ (scad_lines : List String) (indent : String) (index : ℤ),
      ScadPolygon.points_loop polygons scad_lines indent index
        = (scad_lines ++ ScadPolygon.points_emit polygons indent index,
           index + ((polygons.map (fun x => x.points.length)).sum : ℤ)) := by
  induction polygons with
  | nil =>
    intro scad_lines indent index
    simp [ScadPolygon.points_loop, ScadPolygon.points_emit]
  | cons polygon rest ih =>
    intro scad_lines indent index
    simp only [ScadPolygon.points_loop, ScadPolygon.points_emit]
    rw [Polygon.points_scad_lines_append_eq polygon scad_lines indent index,
      Polygon.points_scad_lines_append_eq polygon [] indent index]
    simp only [List.nil_append]
    rw [ih (scad_lines ++ (polygon.points_scad_lines_append [] indent index).1) indent _,
      ih ((polygon.points_scad_lines_append [] indent index).1) indent _]
    simp only [List.map_cons, List.sum_cons, List.append_assoc, Prod.mk.injEq]
    refine ⟨trivial, ?_⟩
    ring

/-- The segment emitted by the `paths` loop starting from empty lines. -/
def ScadPolygon.indices_emit (polygons : List (Polygon ℚ)) (indent : String)
    (index : ℤ) : List String :=
  (ScadPolygon.indices_loop polygons [] indent index).1

/-- Closed form of the `paths` loop. -/
theorem ScadPolygon.indices_loop_closed (polygons : List (Polygon ℚ)) :
    ∀ (scad_lines : List String) (indent : String) (index : ℤ),
      ScadPolygon.indices_loop polygons scad_lines indent index
        = (scad_lines ++ ScadPolygon.indices_emit polygons indent index,
           index + ((polygons.map (fun x => x.points.length)).sum : ℤ)) := by
  induction polygons with
  | nil =>
    intro scad_lines indent index
    simp [ScadPolygon.indices_loop, ScadPolygon.indices_emit]
  | cons polygon rest ih =>
    intro scad_lines indent index
    simp only [ScadPolygon.indices_loop, ScadPolygon.indices_emit]
    rw [Polygon.indices_scad_lines_append_eq polygon scad_lines indent index,
      Polygon.indices_scad_lines_append_eq polygon [] indent index]
    simp only [List.nil_append]
    rw [ih (scad_lines ++ (polygon.indices_scad_lines_append [] indent index).1) indent _,
      ih ((polygon.indices_scad_lines_append [] indent index).1) indent _]
    simp only [List.map_cons, List.sum_cons, List.append_assoc, Prod.mk.injEq]
    refine ⟨trivial, ?_⟩
    ring

/-! ### Tessellation helper lemmas -/

/-- `arc_append` generates exactly `points_count` points (clamped at 0
for negative counts, as Python `range` is). -/
theorem arc_points_length {α : Type} [Field α] (Cos Sin : α → α) (center : P α)
    (radius start_angle end_angle : α) (points_count : ℤ) :
    (arc_points Cos Sin center radius start_angle end_angle points_count).length
      = points_count.toNat := by
  simp [arc_points]

/-- The `i`-th generated arc point, in the source's form. -/
theorem arc_points_getElem? {α : Type} [Field α] (Cos Sin : α → α) (center : P α)
    (radius start_angle end_angle : α) (points_count : ℤ) (i : ℕ)
    (hi : i < points_count.toNat) :
    (arc_points Cos Sin center radius start_angle end_angle points_count)[i]?
      = some ⟨center.x + radius * Cos (start_angle + (i : α) *
                ((end_angle - start_angle) / (((points_count - 1 : ℤ) : α)))),
              center.y + radius * Sin (start_angle + (i : α) *
                ((end_angle - start_angle) / (((points_count - 1 : ℤ) : α)))), 0⟩ := by
  simp only [arc_points, List.getElem?_map, List.getElem?_range hi, Option.map_some']

/-- Every arc point has `z = 0`. -/
theorem arc_points_z {α : Type} [Field α] {Cos Sin : α → α} {center : P α}
    {radius start_angle end_angle : α} {points_count : ℤ} {pt : P α}
    (h : pt ∈ arc_points Cos Sin center radius start_angle end_angle points_count) :
    pt.z = 0 := by
  simp only [arc_points, List.mem_map] at h
  obtain ⟨i, _, rfl⟩ := h
  rfl

/-- Every circle point has `z = 0`. -/
theorem circle_points_z {α : Type} [Field α] {Cos Sin : α → α} {Pi : α} {center : P α}
    {diameter : α} {points_count : ℤ} {pt : P α}
    (h : pt ∈ circle_points Cos Sin Pi center diameter points_count) :
    pt.z = 0 := by
  simp only [circle_points, List.mem_map] at h
  obtain ⟨i, _, rfl⟩ := h
  rfl

/-! ### Claim theorems -/

/-- C2: for every `count ≥ 2`, `arc_append(center, r, a0, a1, count)`
appends exactly `count` points, evenly spaced in angle with step
`(a1 - a0) / (count - 1)`, each point equal to
`(center.x + r*cos θ, center.y + r*sin θ)`; the first appended point is at
angle `a0` and the last at angle `a1`. -/
theorem c2_arc_append {α : Type} [Field α] [CharZero α] (Cos Sin : α → α)
    (polygon : Polygon α) (center : P α) (radius start_angle end_angle : α)
    (count : ℤ) (hcount : 2 ≤ count) :
    Polygon.arc_append Cos Sin polygon center radius start_angle end_angle count
        = some ⟨polygon.name,
            polygon.points ++ arc_points Cos Sin center radius start_angle end_angle count⟩
    ∧ (arc_points Cos Sin center radius start_angle end_angle count).length = count.toNat
    ∧ (∀ i : ℕ, i < count.toNat →
        (arc_points Cos Sin center radius start_angle end_angle count)[i]?
          = some ⟨center.x + radius * Cos (start_angle + (i : α) *
                    ((end_angle - start_angle) / ((count : α) - 1))),
                  center.y + radius * Sin (start_angle + (i : α) *
                    ((end_angle - start_angle) / ((count : α) - 1))), 0⟩)
    ∧ (arc_points Cos Sin center radius start_angle end_angle count).head?
        = some ⟨center.x + radius * Cos start_angle,
                center.y + radius * Sin start_angle, 0⟩
    ∧ (arc_points Cos Sin center radius start_angle end_angle count).getLast?
        = some ⟨center.x + radius * Cos end_angle,
                center.y + radius * Sin end_angle, 0⟩ := by
  have hne : count - 1 ≠ 0 := by omega
  have hcast : ((count - 1 : ℤ) : α) = (count : α) - 1 := by push_cast; ring
  have hcastne : ((count : α) - 1) ≠ 0 := by
    rw [← hcast]
    exact_mod_cast hne
  have hget : ∀ i : ℕ, i < count.toNat →
      (arc_points Cos Sin center radius start_angle end_angle count)[i]?
        = some ⟨center.x + radius * Cos (start_angle + (i : α) *
                  ((end_angle - start_angle) / ((count : α) - 1))),
                center.y + radius * Sin (start_angle + (i : α) *
                  ((end_angle - start_angle) / ((count : α) - 1))), 0⟩ := by
    intro i hi
    rw [arc_points_getElem? Cos Sin center radius start_angle end_angle count i hi, hcast]
  have hlen := arc_points_length Cos Sin center radius start_angle end_angle count
  have hpos : 0 < count.toNat := by omega
  refine ⟨?_, hlen, hget, ?_, ?_⟩
  · obtain ⟨pname, ppoints⟩ := polygon
    simp [Polygon.arc_append, hne]
  · rw [List.head?_eq_getElem?, hget 0 hpos]
    norm_num
  · rw [List.getLast?_eq_getElem?, hlen, hget (count.toNat - 1) (by omega)]
    have h5 : ((count.toNat - 1 : ℕ) : α) = (count : α) - 1 := by
      have h6 : ((count.toNat - 1 : ℕ) : ℤ) = count - 1 := by omega
      exact_mod_cast h6
    have hangle : start_angle + ((count.toNat - 1 : ℕ) : α) *
        ((end_angle - start_angle) / ((count : α) - 1)) = end_angle := by
      rw [h5]
      field_simp
    rw [hangle]

/-- C2 witness: a concrete instance of the arc-append theorem. -/
theorem c2_arc_append_witness :
    (2 : ℤ) ≤ 2
    ∧ Polygon.arc_append (fun x : ℚ => x) (fun x : ℚ => x)
        (⟨"w", []⟩ : Polygon ℚ) ⟨0, 0, 0⟩ 1 0 1 2
      = some ⟨(⟨"w", []⟩ : Polygon ℚ).name,
          (⟨"w", []⟩ : Polygon ℚ).points
            ++ arc_points (fun x : ℚ => x) (fun x : ℚ => x) ⟨0, 0, 0⟩ 1 0 1 2⟩ :=
  ⟨by norm_num,
   (c2_arc_append (fun x : ℚ => x) (fun x : ℚ => x) ⟨"w", []⟩ ⟨0, 0, 0⟩ 1 0 1 2
     (by norm_num)).1⟩

/-- C3: for all endpoints and every `n ≥ 2`, `slot_append(e1, e2, L, W, n)`
appends exactly `2n` points: with `center = midpoint(e1, e2)` and
`angle = atan2(Δy, Δx)` of the `end1 → end2` line, two arc centers are
placed at `center ± (L/2)` along that angle, and around each a
`+90°`-to-`-90°` half-circle arc of radius `W/2` (the second offset by
180° from the first) is appended with `n` points each, via `arc_append`'s
point generator. -/
theorem c3_slot_append {α : Type} [Field α] (Cos Sin : α → α) (Atan2 : α → α → α)
    (Pi : α) (polygon : Polygon α) (end_point1 end_point2 : P α)
    (slot_length slot_width : α) (points_count : ℤ) (hcount : 2 ≤ points_count) :
    ∃ polygon2 : Polygon α,
      Polygon.slot_append Cos Sin Atan2 Pi polygon end_point1 end_point2
          slot_length slot_width points_count = some polygon2
      ∧ polygon2.points
          = polygon.points
            ++ arc_points Cos Sin
                ⟨(end_point1.x + end_point2.x) / 2 + slot_length / 2 *
                    Cos (Atan2 (end_point1.y - end_point2.y) (end_point1.x - end_point2.x)),
                 (end_point1.y + end_point2.y) / 2 + slot_length / 2 *
                    Sin (Atan2 (end_point1.y - end_point2.y) (end_point1.x - end_point2.x)), 0⟩
                (slot_width / 2)
                (Atan2 (end_point1.y - end_point2.y) (end_point1.x - end_point2.x) - Pi / 2)
                (Atan2 (end_point1.y - end_point2.y) (end_point1.x - end_point2.x) + Pi / 2)
                points_count
            ++ arc_points Cos Sin
                ⟨(end_point1.x + end_point2.x) / 2 + slot_length / 2 *
                    Cos (Atan2 (end_point1.y - end_point2.y) (end_point1.x - end_point2.x) + Pi),
                 (end_point1.y + end_point2.y) / 2 + slot_length / 2 *
                    Sin (Atan2 (end_point1.y - end_point2.y) (end_point1.x - end_point2.x) + Pi),
                 0⟩
                (slot_width / 2)
                (Atan2 (end_point1.y - end_point2.y) (end_point1.x - end_point2.x) + Pi - Pi / 2)
                (Atan2 (end_point1.y - end_point2.y) (end_point1.x - end_point2.x) + Pi + Pi / 2)
                points_count
      ∧ polygon2.points.length = polygon.points.length + 2 * points_count.toNat := by
  have hne : points_count - 1 ≠ 0 := by omega
  rcases hsome : Polygon.slot_append Cos Sin Atan2 Pi polygon end_point1 end_point2
      slot_length slot_width points_count with - | polygon2
  · exfalso
    simp [Polygon.slot_append, Polygon.arc_append, if_neg hne] at hsome
  · have h := hsome
    simp only [Polygon.slot_append, Polygon.arc_append, if_neg hne,
      Option.some.injEq] at h
    refine ⟨polygon2, rfl, ?_, ?_⟩
    · rw [← h]
      simp [P.add, P.truediv, List.append_assoc]
    · rw [← h]
      simp only [List.length_append, arc_points_length]
      omega

/-- C3 witness: a concrete instance of the slot-append theorem. -/
theorem c3_slot_append_witness :
    (2 : ℤ) ≤ 2
    ∧ ∃ polygon2 : Polygon ℚ,
        Polygon.slot_append (fun x : ℚ => x) (fun x : ℚ => x) (fun _ _ => 0) 0
            (⟨"w", []⟩ : Polygon ℚ) ⟨0, 0, 0⟩ ⟨2, 0, 0⟩ 2 1 2 = some polygon2
        ∧ polygon2.points.length = (⟨"w", []⟩ : Polygon ℚ).points.length + 2 * (2 : ℤ).toNat :=
  ⟨by norm_num,
   by
    obtain ⟨p2, h1, _, h3⟩ := c3_slot_append (fun x : ℚ => x) (fun x : ℚ => x)
      (fun _ _ => 0) 0 (⟨"w", []⟩ : Polygon ℚ) ⟨0, 0, 0⟩ ⟨2, 0, 0⟩ 2 1 2 (by norm_num)
    exact ⟨p2, h1, h3⟩⟩

/-- C5 counterexample: the claim says every `count < 2` makes `arc_append`
fail at the call site, but `count = 0 < 2` succeeds (the source divides by
`count - 1 = -1`, then `range(0)` appends nothing): the call returns the
polygon unchanged rather than failing. -/
theorem c5_counterexample :
    (0 : ℤ) < 2
    ∧ Polygon.arc_append (fun x : ℚ => x) (fun x : ℚ => x)
        (⟨"p", [⟨3, 4, 5⟩]⟩ : Polygon ℚ) ⟨0, 0, 0⟩ 1 0 1 0
      = some (⟨"p", [⟨3, 4, 5⟩]⟩ : Polygon ℚ) := by
  refine ⟨by norm_num, ?_⟩
  decide

/-- C5 amended: `arc_append` fails (the `ZeroDivisionError` computing the
angle step) exactly when `count = 1`, and the failure happens before any
point is appended (a failing call leaves the point sequence untouched);
for `count ≤ 0` the call succeeds and appends nothing; every successful
call appends its points atomically.  Likewise `circle_append` fails
exactly when `count = 0` and `slot_append` exactly when `count = 1`. -/
theorem c5_amended {α : Type} [Field α] (Cos Sin : α → α) (Atan2 : α → α → α)
    (Pi : α) (polygon : Polygon α) (center : P α)
    (radius start_angle end_angle diameter : α) (end_point1 end_point2 : P α)
    (slot_length slot_width : α) (count circle_count : ℤ) :
    (Polygon.arc_append Cos Sin polygon center radius start_angle end_angle count = none
      ↔ count = 1)
    ∧ (count ≤ 0 →
        Polygon.arc_append Cos Sin polygon center radius start_angle end_angle count
          = some polygon)
    ∧ (∀ polygon2 : Polygon α,
        Polygon.arc_append Cos Sin polygon center radius start_angle end_angle count
            = some polygon2 →
          polygon2.name = polygon.name
          ∧ polygon2.points = polygon.points
              ++ arc_points Cos Sin center radius start_angle end_angle count)
    ∧ (Polygon.circle_append Cos Sin Pi polygon center diameter circle_count = none
      ↔ circle_count = 0)
    ∧ (Polygon.slot_append Cos Sin Atan2 Pi polygon end_point1 end_point2
          slot_length slot_width count = none
      ↔ count = 1) := by
  obtain ⟨pname, ppoints⟩ := polygon
  refine ⟨?_, ?_, ?_, ?_, ?_⟩
  · by_cases h : count - 1 = 0
    · simp only [Polygon.arc_append, if_pos h]
      constructor
      · intro _; omega
      · intro _; trivial
    · simp only [Polygon.arc_append, if_neg h]
      constructor
      · intro hcontra; exact absurd hcontra (by simp)
      · intro h1; omega
  · intro hle
    have h : count - 1 ≠ 0 := by omega
    have hz : count.toNat = 0 := by omega
    simp [Polygon.arc_append, h, arc_points, hz]
  · intro polygon2 h2
    by_cases h : count - 1 = 0
    · simp [Polygon.arc_append, if_pos h] at h2
    · simp only [Polygon.arc_append, if_neg h, Option.some.injEq] at h2
      subst h2
      exact ⟨rfl, rfl⟩
  · by_cases h : circle_count = 0
    · simp only [Polygon.circle_append, if_pos h]
      simp [h]
    · simp only [Polygon.circle_append, if_neg h]
      constructor
      · intro hcontra; exact absurd hcontra (by simp)
      · intro h1; exact absurd h1 h
  · by_cases h : count - 1 = 0
    · simp only [Polygon.slot_append, Polygon.arc_append, if_pos h]
      constructor
      · intro _; omega
      · intro _; trivial
    · simp only [Polygon.slot_append, Polygon.arc_append, if_neg h]
      constructor
      · intro hcontra; exact absurd hcontra (by simp)
      · intro h1; omega

/-- C5 amended witness: a concrete instance, discharging the `count ≤ 0`
and successful-append hypotheses. -/
theorem c5_amended_witness :
    (0 : ℤ) ≤ 0
    ∧ Polygon.arc_append (fun x : ℚ => x) (fun x : ℚ => x)
        (⟨"p", [⟨3, 4, 5⟩]⟩ : Polygon ℚ) ⟨0, 0, 0⟩ 1 0 1 0
      = some (⟨"p", [⟨3, 4, 5⟩]⟩ : Polygon ℚ) :=
  ⟨by norm_num,
   (c5_amended (fun x : ℚ => x) (fun x : ℚ => x) (fun _ _ => 0) 0
     (⟨"p", [⟨3, 4, 5⟩]⟩ : Polygon ℚ) ⟨0, 0, 0⟩ 1 0 1 0 ⟨0, 0, 0⟩ ⟨0, 0, 0⟩ 0 0
     0 3).2.1 (by norm_num)⟩

/-- C10: every point appended by `arc_append`, `circle_append` and
`slot_append` has `z = 0` regardless of the inputs' `z` coordinates,
whereas `rotated_rectangle_append`'s appended points carry
`z = center.z`. -/
theorem c10_z_coordinates {α : Type} [Field α] (Cos Sin : α → α)
    (Atan2 : α → α → α) (Pi : α) :
    (∀ (center : P α) (radius start_angle end_angle : α) (n : ℤ) (pt : P α),
        pt ∈ arc_points Cos Sin center radius start_angle end_angle n → pt.z = 0)
    ∧ (∀ (center : P α) (diameter : α) (n : ℤ) (pt : P α),
        pt ∈ circle_points Cos Sin Pi center diameter n → pt.z = 0)
    ∧ (∀ (polygon : Polygon α) (end_point1 end_point2 : P α)
          (slot_length slot_width : α) (n : ℤ) (polygon2 : Polygon α),
        Polygon.slot_append Cos Sin Atan2 Pi polygon end_point1 end_point2
            slot_length slot_width n = some polygon2 →
          ∀ pt ∈ polygon2.points.drop polygon.points.length, pt.z = 0)
    ∧ (∀ (polygon : Polygon α) (center : P α) (dx dy angle : α),
        ∀ pt ∈ (Polygon.rotated_rectangle_append Cos Sin polygon center
            dx dy angle).points.drop polygon.points.length,
          pt.z = center.z) := by
  refine ⟨?_, ?_, ?_, ?_⟩
  · intro center radius start_angle end_angle n pt h
    exact arc_points_z h
  · intro center diameter n pt h
    exact circle_points_z h
  · intro polygon end_point1 end_point2 slot_length slot_width n polygon2 hsome pt hmem
    by_cases h : n - 1 = 0
    · simp [Polygon.slot_append, Polygon.arc_append, if_pos h] at hsome
    · simp only [Polygon.slot_append, Polygon.arc_append, if_neg h,
        Option.some.injEq] at hsome
      subst hsome
      simp only [List.append_assoc, List.drop_left] at hmem
      rcases List.mem_append.mp hmem with h1 | h1
      · exact arc_points_z h1
      · exact arc_points_z h1
  · intro polygon center dx dy angle pt hmem
    simp only [Polygon.rotated_rectangle_append, List.drop_left] at hmem
    simp only [List.mem_cons, List.not_mem_nil, or_false] at hmem
    rcases hmem with rfl | rfl | rfl | rfl <;>
      simp [P.add, P.rotate2d]

/-- C10 witness: concrete memberships for each conjunct. -/
theorem c10_z_coordinates_witness :
    ((⟨0, 0, 0⟩ : P ℚ) ∈ arc_points (fun x : ℚ => x) (fun x : ℚ => x) ⟨0, 0, 0⟩ 0 0 0 2
      ∧ (⟨0, 0, 0⟩ : P ℚ).z = 0)
    ∧ ((⟨0, 0, 0⟩ : P ℚ) ∈ circle_points (fun x : ℚ => x) (fun x : ℚ => x) 0 ⟨0, 0, 0⟩ 0 1
      ∧ (⟨0, 0, 0⟩ : P ℚ).z = 0)
    ∧ (Polygon.slot_append (fun x : ℚ => x) (fun x : ℚ => x) (fun _ _ => 0) 0
          (⟨"w", []⟩ : Polygon ℚ) ⟨0, 0, 0⟩ ⟨0, 0, 0⟩ 0 0 2
        = some ⟨"w", [⟨0, 0, 0⟩, ⟨0, 0, 0⟩, ⟨0, 0, 0⟩, ⟨0, 0, 0⟩]⟩
      ∧ (⟨0, 0, 0⟩ : P ℚ) ∈ (⟨"w",
          [⟨0, 0, 0⟩, ⟨0, 0, 0⟩, ⟨0, 0, 0⟩, ⟨0, 0, 0⟩]⟩ : Polygon ℚ).points.drop
          (⟨"w", []⟩ : Polygon ℚ).points.length
      ∧ (⟨0, 0, 0⟩ : P ℚ).z = 0)
    ∧ ((⟨1, 2, 3⟩ : P ℚ) ∈ (Polygon.rotated_rectangle_append (fun x : ℚ => x)
          (fun x : ℚ => x) (⟨"w", []⟩ : Polygon ℚ) ⟨1, 2, 3⟩ 0 0 0).points.drop
          (⟨"w", []⟩ : Polygon ℚ).points.length
      ∧ (⟨1, 2, 3⟩ : P ℚ).z = (⟨1, 2, 3⟩ : P ℚ).z) := by
  have harc : arc_points (fun x : ℚ => x) (fun x : ℚ => x) ⟨0, 0, 0⟩ 0 0 0 2
      = [⟨0, 0, 0⟩, ⟨0, 0, 0⟩] := by
    unfold arc_points
    norm_num [List.range_succ]
    decide
  have hcirc : circle_points (fun x : ℚ => x) (fun x : ℚ => x) 0 ⟨0, 0, 0⟩ 0 1
      = [⟨0, 0, 0⟩] := by
    unfold circle_points
    norm_num [List.range_succ]
  have hrect : (Polygon.rotated_rectangle_append (fun x : ℚ => x) (fun x : ℚ => x)
        (⟨"w", []⟩ : Polygon ℚ) ⟨1, 2, 3⟩ 0 0 0).points
      = [⟨1, 2, 3⟩, ⟨1, 2, 3⟩, ⟨1, 2, 3⟩, ⟨1, 2, 3⟩] := by
    unfold Polygon.rotated_rectangle_append P.rotate2d P.add
    norm_num
  have hmem_arc : (⟨0, 0, 0⟩ : P ℚ) ∈ arc_points (fun x : ℚ => x) (fun x : ℚ => x)
      ⟨0, 0, 0⟩ 0 0 0 2 := by
    rw [harc]
    exact List.mem_cons_self _ _
  have hmem_circ : (⟨0, 0, 0⟩ : P ℚ) ∈ circle_points (fun x : ℚ => x) (fun x : ℚ => x)
      0 ⟨0, 0, 0⟩ 0 1 := by
    rw [hcirc]
    exact List.mem_cons_self _ _
  have hmem_rect : (⟨1, 2, 3⟩ : P ℚ) ∈ (Polygon.rotated_rectangle_append (fun x : ℚ => x)
      (fun x : ℚ => x) (⟨"w", []⟩ : Polygon ℚ) ⟨1, 2, 3⟩ 0 0 0).points.drop
      (⟨"w", []⟩ : Polygon ℚ).points.length := by
    rw [hrect]
    exact List.mem_cons_self _ _
  have hslot : Polygon.slot_append (fun x : ℚ => x) (fun x : ℚ => x) (fun _ _ => 0) 0
      (⟨"w", []⟩ : Polygon ℚ) ⟨0, 0, 0⟩ ⟨0, 0, 0⟩ 0 0 2
      = some ⟨"w", [⟨0, 0, 0⟩, ⟨0, 0, 0⟩, ⟨0, 0, 0⟩, ⟨0, 0, 0⟩]⟩ := by
    simp only [Polygon.slot_append, Polygon.arc_append,
      if_neg (show (2 : ℤ) - 1 ≠ 0 from by decide), Option.some.injEq]
    unfold arc_points
    norm_num [List.range_succ, P.add, P.truediv]
    decide
  have hmem_slot : (⟨0, 0, 0⟩ : P ℚ) ∈ (⟨"w",
      [⟨0, 0, 0⟩, ⟨0, 0, 0⟩, ⟨0, 0, 0⟩, ⟨0, 0, 0⟩]⟩ : Polygon ℚ).points.drop
      (⟨"w", []⟩ : Polygon ℚ).points.length :=
    List.mem_cons_self _ _
  refine ⟨⟨hmem_arc, ?_⟩, ⟨hmem_circ, ?_⟩, ⟨hslot, hmem_slot, ?_⟩, ⟨hmem_rect, ?_⟩⟩
  · exact (c10_z_coordinates (fun x : ℚ => x) (fun x : ℚ => x) (fun _ _ => 0) 0).1
      ⟨0, 0, 0⟩ 0 0 0 2 ⟨0, 0, 0⟩ hmem_arc
  · exact (c10_z_coordinates (fun x : ℚ => x) (fun x : ℚ => x) (fun _ _ => 0) 0).2.1
      ⟨0, 0, 0⟩ 0 1 ⟨0, 0, 0⟩ hmem_circ
  · exact (c10_z_coordinates (fun x : ℚ => x) (fun x : ℚ => x) (fun _ _ => 0) 0).2.2.1
      ⟨"w", []⟩ ⟨0, 0, 0⟩ ⟨0, 0, 0⟩ 0 0 2 ⟨"w", [⟨0, 0, 0⟩, ⟨0, 0, 0⟩, ⟨0, 0, 0⟩, ⟨0, 0, 0⟩]⟩
      hslot ⟨0, 0, 0⟩ hmem_slot
  · exact (c10_z_coordinates (fun x : ℚ => x) (fun x : ℚ => x) (fun _ _ => 0) 0).2.2.2
      ⟨"w", []⟩ ⟨1, 2, 3⟩ 0 0 0 ⟨1, 2, 3⟩ hmem_rect

/-- C1: for every `ScadPolygon` built from contours of lengths
`l0..lk`, the rendered output's global point list contains exactly
`Σ li` points in contour-supplied order, and the path emitted for contour
`i` is exactly the contiguous index range `[Σ_{j<i} lj, Σ_{j≤i} lj)`, so
the paths are pairwise disjoint and together cover every point index. -/
theorem c1_flattening (sp : ScadPolygon) :
    sp.flat_points = (sp.polygons.map Polygon.points).flatten
    ∧ sp.flat_points.length = (sp.polygons.map (fun x => x.points.length)).sum
    ∧ (ScadPolygon.paths sp).length = sp.polygons.length
    ∧ (∀ i : ℕ, (ScadPolygon.paths sp)[i]?
        = (sp.polygons[i]?).map (fun polygon =>
            (List.range polygon.points.length).map (fun (j : ℕ) =>
              (((sp.polygons.map (fun x => x.points.length)).take i).sum : ℤ) + (j : ℤ))))
    ∧ (ScadPolygon.paths sp).flatten
        = (List.range ((sp.polygons.map (fun x => x.points.length)).sum)).map
            (fun (j : ℕ) => (j : ℤ))
    ∧ List.Pairwise (fun p q => ∀ a ∈ p, a ∉ q) (ScadPolygon.paths sp) := by
  have hflat : sp.flat_points = (sp.polygons.map Polygon.points).flatten := by
    unfold ScadPolygon.flat_points
    congr 1
    exact List.map_congr_left (fun p _ => p.emitted_points_eq)
  refine ⟨hflat, ?_, ?_, ?_, ?_, ?_⟩
  · rw [hflat, List.length_flatten, List.map_map]
    rfl
  · exact ScadPolygon.paths_from_length sp.polygons 0
  · intro i
    unfold ScadPolygon.paths
    rw [ScadPolygon.paths_from_getElem?]
    cases h : sp.polygons[i]? with
    | none => rfl
    | some p =>
      simp only [Option.map_some']
      rw [Polygon.path_indices_eq]
      simp only [zero_add]
  · unfold ScadPolygon.paths
    rw [ScadPolygon.paths_from_flatten]
    simp only [zero_add]
  · exact ScadPolygon.paths_from_pairwise_disjoint sp.polygons 0

/-- `toString` on a `String` is the identity. -/
theorem toString_string (s : String) : toString s = s := rfl

/-- C4 counterexample: the claim says the convexity parameter appears iff
the configured convexity is a positive integer; but a `ScadPolygon`
configured with `convexity = 0` (not positive) still renders the trailing
`, convexity=0` parameter — the source only omits it for negative values. -/
theorem c4_counterexample :
    ¬(0 : ℤ) < 0
    ∧ (ScadPolygon.scad_lines_append ⟨"c4", [⟨"p", []⟩], 0⟩ [] "").getLast?
        = some (" ], convexity=0); // End ScadPolygon " ++ sq ++ "c4" ++ sq ++ " [0-0]")
    ∧ (ScadPolygon.scad_lines_append ⟨"c4", [⟨"p", []⟩], 0⟩ [] "").getLast?
        ≠ some (" ]); // End ScadPolygon " ++ sq ++ "c4" ++ sq ++ " [0-0]") := by
  refine ⟨by norm_num, ?_, ?_⟩ <;> decide

/-- C4 amended: the rendered output's closing line carries the trailing
convexity parameter iff the configured convexity is non-negative
(the source omits it exactly when `convexity < 0`, the default `-1`);
a zero convexity is emitted even though it is not positive. -/
theorem c4_amended (sp : ScadPolygon) (scad_lines : List String) (indent : String) :
    (ScadPolygon.scad_lines_append sp scad_lines indent).getLast?
        = some (sp.end_line indent)
    ∧ (convexity_text sp.convexity = "" ↔ sp.convexity < 0)
    ∧ (∃ pre post : String,
        sp.end_line indent = pre ++ convexity_text sp.convexity ++ post) := by
  refine ⟨?_, ?_, ?_⟩
  · simp only [ScadPolygon.scad_lines_append]
    exact List.getLast?_concat _
  · unfold convexity_text
    by_cases h : sp.convexity < 0
    · rw [if_pos h]
      exact iff_of_true rfl h
    · rw [if_neg h]
      constructor
      · intro hcontra
        have hlen := congrArg String.length hcontra
        simp only [String.length_append, toString_string] at hlen
        have h12 : (", convexity=" : String).length = 12 := rfl
        have h0 : ("" : String).length = 0 := rfl
        omega
      · intro hcontra
        exact absurd hcontra h
  · refine ⟨"" ++ indent ++ " ]",
      toString ("); // End ScadPolygon ") ++ toString sq ++ toString ("")
        ++ toString sp.name ++ toString ("") ++ toString sq ++ toString (" [0-")
        ++ toString ((sp.polygons.length : ℤ) - 1) ++ toString ("]"), ?_⟩
    simp only [ScadPolygon.end_line, convexity_text, String.append_assoc,
      toString_string]

/-- C6: rendering is idempotent and deterministic — `scad_lines_append`
only appends, and the appended segment does not depend on the lines
already present, so two renders of an unmodified set produce
byte-identical text. -/
theorem c6_idempotent_render (sp : ScadPolygon) (scad_lines : List String)
    (indent : String) :
    ScadPolygon.scad_lines_append sp scad_lines indent
      = scad_lines ++ ScadPolygon.scad_lines_append sp [] indent := by
  simp only [ScadPolygon.scad_lines_append]
  rw [ScadPolygon.points_loop_closed, ScadPolygon.points_loop_closed]
  dsimp only
  rw [ScadPolygon.indices_loop_closed, ScadPolygon.indices_loop_closed]
  dsimp only
  simp [List.append_assoc]

/-- Three-digit padding always yields three characters. -/
theorem pad3_length (n : ℕ) : (pad3 n).length = 3 := rfl

/-- Digit characters are digits. -/
theorem digit_char_isDigit (n : ℕ) : (digit_char n).isDigit = true := by
  unfold digit_char
  have h : n % 10 < 10 := Nat.mod_lt _ (by norm_num)
  set k := n % 10 with hk
  interval_cases k <;> decide

/-- Every character of the three-digit padding is a digit. -/
theorem pad3_digits (n : ℕ) : (pad3 n).data.all Char.isDigit = true := by
  unfold pad3
  simp only [List.all_cons, List.all_nil, digit_char_isDigit, Bool.and_self,
    Bool.true_and, Bool.and_true]

/-- `coord_text 0` evaluates to `"0.000"`. -/
theorem coord_text_zero : coord_text (0 : ℚ) = "0.000" := by
  have hfmt : format3 (0 : ℚ) = "0.000" := by
    unfold format3
    have h1 : |(0 : ℚ)| * 1000 = 0 := by norm_num
    rw [h1]
    have h2 : round_half_even (0 : ℚ) = 0 := by
      unfold round_half_even
      norm_num
    rw [h2, if_neg (show ¬(0 : ℚ) < 0 from by norm_num)]
    decide
  unfold coord_text
  rw [hfmt]
  decide

/-- `format3` on `-0.0000001` yields `"-0.000"` (the value is negative and
rounds to zero at three decimals). -/
theorem format3_neg_small : format3 (-1 / 10000000 : ℚ) = "-0.000" := by
  unfold format3
  have h1 : |(-1 / 10000000 : ℚ)| * 1000 = 1 / 10000 := by
    rw [abs_of_neg (show (-1 / 10000000 : ℚ) < 0 from by norm_num)]
    norm_num
  rw [h1]
  have h2 : round_half_even (1 / 10000 : ℚ) = 0 := by
    unfold round_half_even
    have hf : ⌊(1 / 10000 : ℚ)⌋ = 0 := by
      rw [Int.floor_eq_iff]
      norm_num
    rw [hf]
    norm_num
  rw [h2, if_pos (show (-1 / 10000000 : ℚ) < 0 from by norm_num)]
  decide

/-- `coord_text` on `-0.0000001` is the normalized `"0.000"`. -/
theorem coord_text_neg_small : coord_text (-1 / 10000000 : ℚ) = "0.000" := by
  unfold coord_text
  rw [format3_neg_small]
  decide

/-- C9: every point coordinate in the rendered output is formatted with
exactly 3 decimal digits, and a coordinate that formats to `"-0.000"` is
normalized to `"0.000"`; in particular rendering a point with
`x = -0.0000001` emits `"0.000"` for `x`, never `"-0.000"`. -/
theorem c9_coordinate_format (q : ℚ) :
    coord_text q ≠ "-0.000"
    ∧ (∃ pre frac : String, coord_text q = pre ++ "." ++ frac
        ∧ frac.length = 3 ∧ frac.data.all Char.isDigit = true)
    ∧ coord_text (-1 / 10000000 : ℚ) = "0.000"
    ∧ (Polygon.points_scad_lines_append ⟨"p", [⟨-1 / 10000000, 0, 0⟩]⟩ [] "" 0).1
        = [" // Polygon " ++ sq ++ "p" ++ sq ++ " 0:0",
           "  [0.000, 0.000], // 0:0"] := by
  refine ⟨?_, ?_, coord_text_neg_small, ?_⟩
  · unfold coord_text
    by_cases h : format3 q = "-0.000"
    · rw [if_pos h]
      decide
    · rw [if_neg h]
      exact h
  · unfold coord_text
    by_cases h : format3 q = "-0.000"
    · rw [if_pos h]
      exact ⟨"0", "000", by decide, rfl, rfl⟩
    · rw [if_neg h]
      refine ⟨(if q < 0 then "-" else "")
          ++ toString ((round_half_even (|q| * 1000)).toNat / 1000),
        pad3 ((round_half_even (|q| * 1000)).toNat % 1000), ?_,
        pad3_length _, pad3_digits _⟩
      unfold format3
      rfl
  · unfold Polygon.points_scad_lines_append
    have hsc : slices_count 1 4 = 1 := rfl
    simp only [List.length_cons, List.length_nil, Nat.zero_add, hsc]
    simp only [List.range_succ, List.range_zero, List.nil_append, List.foldl_cons,
      List.foldl_nil, points_slice_line]
    norm_num [py_slice]
    rw [show (-(1 / 10000000) : ℚ) = -1 / 10000000 from by norm_num]
    simp only [coord_text_neg_small, coord_text_zero]
    decide

/-! ### Heap-model lemmas -/

/-- Appending a point through a reference extends exactly that cell. -/
theorem resolve_point_append_self (h : PHeap) (c : PolygonRef) (q : P ℚ)
    (href : c.points_ref < h.length) :
    resolve (point_append_heap h c q) c = ⟨c.name, (resolve h c).points ++ [q]⟩ := by
  simp only [resolve, point_append_heap, List.getD_eq_getElem?_getD]
  rw [List.getElem?_set_self href]
  rfl

/-- Appending a point through one reference leaves every other cell
untouched. -/
theorem resolve_point_append_ne (h : PHeap) (c : PolygonRef) (q : P ℚ)
    (r : PolygonRef) (hne : r.points_ref ≠ c.points_ref) :
    resolve (point_append_heap h c q) r = resolve h r := by
  simp only [resolve, point_append_heap, List.getD_eq_getElem?_getD]
  rw [List.getElem?_set_ne (Ne.symm hne)]

/-- Appending one contour at the end shifts `paths_from` by one final
path whose start is the total length of the preceding contours. -/
theorem ScadPolygon.paths_from_concat (xs : List (Polygon ℚ)) (y : Polygon ℚ) :
    ∀ start_index : ℤ, ScadPolygon.paths_from (xs ++ [y]) start_index
      = ScadPolygon.paths_from xs start_index
        ++ [y.path_indices (start_index + ((xs.map (fun x => x.points.length)).sum : ℤ))] := by
  induction xs with
  | nil =>
    intro st
    simp [ScadPolygon.paths_from]
  | cons p rest ih =>
    intro st
    simp only [List.cons_append, ScadPolygon.paths_from, List.map_cons, List.sum_cons,
      List.append_eq]
    rw [ih, add_assoc]

/-- C7: late-binding flattening — after a contour reference `c` has been
added to a set, points appended to `c` through the heap are reflected by
the render: the render dereferences every contour at render time, the new
point appears at the end of the flattened point buffer, `c`'s path length
grows by one, and no other cell is affected.  `ScadPolygonRef.polygon_append`
itself never touches the heap (it does not even receive it), so
flattening can only happen at render time. -/
theorem c7_late_binding (h : PHeap) (sp : ScadPolygonRef) (c : PolygonRef)
    (q : P ℚ) (scad_lines : List String) (indent : String)
    (href : c.points_ref < h.length) :
    resolve (point_append_heap h c q) c = ⟨c.name, (resolve h c).points ++ [q]⟩
    ∧ render_heap (point_append_heap h c q) (sp.polygon_append c) scad_lines indent
        = ScadPolygon.scad_lines_append
            ⟨sp.name,
             sp.polygons.map (resolve (point_append_heap h c q))
               ++ [⟨c.name, (resolve h c).points ++ [q]⟩],
             sp.convexity⟩ scad_lines indent
    ∧ (∀ r : PolygonRef, r.points_ref ≠ c.points_ref →
        resolve (point_append_heap h c q) r = resolve h r)
    ∧ ScadPolygon.flat_points
        ⟨sp.name,
         (sp.polygon_append c).polygons.map (resolve (point_append_heap h c q)),
         sp.convexity⟩
      = ScadPolygon.flat_points
          ⟨sp.name, sp.polygons.map (resolve (point_append_heap h c q)), sp.convexity⟩
        ++ ((resolve h c).points ++ [q])
    ∧ ((ScadPolygon.paths
        ⟨sp.name,
         (sp.polygon_append c).polygons.map (resolve (point_append_heap h c q)),
         sp.convexity⟩).map List.length).getLast?
        = some ((resolve h c).points.length + 1) := by
  have hres := resolve_point_append_self h c q href
  refine ⟨hres, ?_, fun r hne => resolve_point_append_ne h c q r hne, ?_, ?_⟩
  · simp only [render_heap, ScadPolygonRef.polygon_append, List.map_append,
      List.map_cons, List.map_nil, hres]
  · simp only [ScadPolygon.flat_points, ScadPolygonRef.polygon_append,
      List.map_append, List.map_cons, List.map_nil, List.flatten_append,
      List.flatten_cons, List.flatten_nil, List.append_nil, hres,
      Polygon.emitted_points_eq]
  · simp only [ScadPolygon.paths, ScadPolygonRef.polygon_append, List.map_append,
      List.map_cons, List.map_nil, hres]
    rw [ScadPolygon.paths_from_concat]
    rw [List.map_append, List.map_cons, List.map_nil, List.getLast?_concat]
    simp [Polygon.path_indices_length]

/-- C7 witness: a concrete heap instance. -/
theorem c7_late_binding_witness :
    (0 : ℕ) < 1
    ∧ resolve (point_append_heap [[]] ⟨"c", 0⟩ ⟨1, 2, 3⟩) ⟨"c", 0⟩
        = ⟨(⟨"c", 0⟩ : PolygonRef).name,
           (resolve [[]] ⟨"c", 0⟩).points ++ [⟨1, 2, 3⟩]⟩ :=
  ⟨by norm_num,
   (c7_late_binding [[]] ⟨"s", [], -1⟩ ⟨"c", 0⟩ ⟨1, 2, 3⟩ [] "" (by norm_num)).1⟩

/-- C8: constructing a Polygon copies the caller-supplied initial point
sequence into a fresh cell, so no two Polygons share point storage: two
successive constructions receive distinct cells, each initialized with a
copy of the caller's list as it stood in the original heap; appending a
point to the first polygon leaves the second polygon's points and the
caller's original list unchanged, while the first polygon's points become
the initial copy extended by the point. -/
theorem c8_no_sharing (h : PHeap) (name1 name2 : String) (r1 r2 : ℕ) (pt : P ℚ)
    (h1 : PHeap) (p1 : PolygonRef) (h2 : PHeap) (p2 : PolygonRef)
    (hinit1 : Polygon.init_heap name1 r1 h = (h1, p1))
    (hinit2 : Polygon.init_heap name2 r2 h1 = (h2, p2))
    (hr1 : r1 < h.length) (hr2 : r2 < h.length) :
    p1.points_ref ≠ p2.points_ref
    ∧ resolve h1 p1 = ⟨name1, h.getD r1 []⟩
    ∧ resolve h2 p2 = ⟨name2, h.getD r2 []⟩
    ∧ resolve (point_append_heap h2 p1 pt) p2 = resolve h2 p2
    ∧ (point_append_heap h2 p1 pt).getD r1 [] = h.getD r1 []
    ∧ resolve (point_append_heap h2 p1 pt) p1 = ⟨name1, h.getD r1 [] ++ [pt]⟩ := by
  simp only [Polygon.init_heap, Prod.mk.injEq] at hinit1 hinit2
  obtain ⟨hh1, hp1⟩ := hinit1
  obtain ⟨hh2, hp2⟩ := hinit2
  subst hh1
  subst hh2
  subst hp1
  subst hp2
  have hL : (h ++ [h.getD r1 []]).length = h.length + 1 := by simp
  have hget2 : (h ++ [h.getD r1 []]).getD r2 [] = h.getD r2 [] := by
    rw [List.getD_eq_getElem?_getD, List.getElem?_append_left hr2,
      List.getD_eq_getElem?_getD]
  have hcell1 : (h ++ [h.getD r1 []] ++ [(h ++ [h.getD r1 []]).getD r2 []]).getD h.length []
      = h.getD r1 [] := by
    rw [List.getD_eq_getElem?_getD, List.append_assoc,
      List.getElem?_append_right (Nat.le_refl h.length), Nat.sub_self]
    rfl
  refine ⟨?_, ?_, ?_, ?_, ?_, ?_⟩
  · show h.length ≠ (h ++ [h.getD r1 []]).length
    omega
  · show resolve (h ++ [h.getD r1 []]) ⟨name1, h.length⟩ = _
    simp only [resolve, List.getD_eq_getElem?_getD, List.getElem?_concat_length]
    rfl
  · show resolve (h ++ [h.getD r1 []] ++ [(h ++ [h.getD r1 []]).getD r2 []])
        ⟨name2, (h ++ [h.getD r1 []]).length⟩ = _
    simp only [resolve, List.getD_eq_getElem?_getD, List.getElem?_concat_length]
    rw [Polygon.mk.injEq]
    refine ⟨rfl, ?_⟩
    simp only [Option.getD_some]
    rw [List.getElem?_append_left hr2]
  · refine resolve_point_append_ne _ _ _ _ ?_
    show (h ++ [h.getD r1 []]).length ≠ h.length
    omega
  · simp only [point_append_heap]
    rw [List.getD_eq_getElem?_getD,
      List.getElem?_set_ne (show h.length ≠ r1 from by omega),
      List.append_assoc, List.getElem?_append_left hr1,
      List.getD_eq_getElem?_getD]
  · have href : (⟨name1, h.length⟩ : PolygonRef).points_ref
        < (h ++ [h.getD r1 []] ++ [(h ++ [h.getD r1 []]).getD r2 []]).length := by
      simp
    rw [resolve_point_append_self _ _ _ href]
    simp only [resolve]
    rw [hcell1]

/-- C8 witness: a concrete two-construction instance. -/
theorem c8_no_sharing_witness :
    Polygon.init_heap ("a") 0 [[⟨7, 8, 9⟩]]
        = ([[⟨7, 8, 9⟩], [⟨7, 8, 9⟩]], ⟨"a", 1⟩)
    ∧ Polygon.init_heap ("b") 0 [[⟨7, 8, 9⟩], [⟨7, 8, 9⟩]]
        = ([[⟨7, 8, 9⟩], [⟨7, 8, 9⟩], [⟨7, 8, 9⟩]], ⟨"b", 2⟩)
    ∧ (0 : ℕ) < 1
    ∧ (⟨"a", 1⟩ : PolygonRef).points_ref ≠ (⟨"b", 2⟩ : PolygonRef).points_ref := by
  refine ⟨?_, ?_, by norm_num, ?_⟩
  · decide
  · decide
  · exact (c8_no_sharing [[⟨7, 8, 9⟩]] ("a") ("b") 0 0 ⟨0, 0, 0⟩
      [[⟨7, 8, 9⟩], [⟨7, 8, 9⟩]] ⟨"a", 1⟩
      [[⟨7, 8, 9⟩], [⟨7, 8, 9⟩], [⟨7, 8, 9⟩]] ⟨"b", 2⟩
      (by decide) (by decide) (by norm_num) (by norm_num)).1

end Scad
